import Mathlib

/-!
Verification development for the simple-jack agent execution orchestrator
(`src/claude/executor.py`, `src/claude/permission_handler.py`,
`src/claude/question_handler.py`).

The Python source is shallowly embedded: the stream-json event model, the
stdout accumulation loop, the exit-code classification, the workspace diff,
the retry-merge logic, and the permission/question registries become
executable Lean definitions, and the spec's claims become theorems about
those definitions.
-/

namespace SimpleJack

/-- Serialized JSON payload of a tool invocation.  The orchestrator never
interprets the payload beyond passing it along, so it is embedded as an
uninterpreted string. -/
abbrev ToolInput := String

/-- One permission denial record from a `result` event
(`{"tool_name": ..., "tool_input": {...}}`). -/
structure Denial where
  tool_name : String
  tool_input : ToolInput
deriving DecidableEq

/-- One content block of an assistant message
(`{"type":"text",...}` or `{"type":"tool_use",...}`). -/
inductive Block where
  | text (s : String)
  | tool_use (name : String) (input : ToolInput)
  | otherBlock
deriving DecidableEq

/-- One parsed stream-json event: `assistant` message, terminal `result`
summary, or any other event type (ignored by the accumulation loop). -/
inductive Event where
  | assistant (content : List Block)
  | result (is_error : Bool) (resultText : String) (errors : List String)
      (permission_denials : List Denial)
  | otherEvent
deriving DecidableEq

/-- The text of a `text` content block, if this block is one. -/
def blockText : Block → Option String
  | .text s => some s
  | _ => none

/-- The inner loop of `read_stdout` over one assistant message's content:
`accumulated_text += block["text"]` for every text block. -/
def appendBlocks (acc : String) (content : List Block) : String :=
  content.foldl (fun a b => match b with | .text s => a ++ s | _ => a) acc

/-- One step of the `read_stdout` accumulation: only `assistant` events
contribute their text blocks. -/
def accumStep (acc : String) (e : Event) : String :=
  match e with
  | .assistant content => appendBlocks acc content
  | _ => acc

/-- The accumulated assistant text built by `read_stdout` over the parsed
events of one run, in arrival order. -/
def accumulateText (events : List Event) : String :=
  events.foldl accumStep ("")

/-- Specification-side view: the list of text-block contents of all
`assistant` events, in arrival order. -/
def assistantTexts (events : List Event) : List String :=
  events.flatMap fun e => match e with
    | .assistant content => content.filterMap blockText
    | _ => []

/-- Concatenation of a list of strings, in order. -/
def concatAll (l : List String) : String := l.foldr (· ++ ·) ""

theorem concatAll_nil : concatAll [] = "" := rfl

theorem concatAll_cons (s : String) (l : List String) :
    concatAll (s :: l) = s ++ concatAll l := rfl

theorem concatAll_append (l₁ l₂ : List String) :
    concatAll (l₁ ++ l₂) = concatAll l₁ ++ concatAll l₂ := by
  induction l₁ with
  | nil => rw [List.nil_append, concatAll_nil, String.empty_append]
  | cons s rest ih =>
    rw [List.cons_append, concatAll_cons, concatAll_cons, ih, String.append_assoc]

theorem appendBlocks_cons (acc : String) (b : Block) (rest : List Block) :
    appendBlocks acc (b :: rest)
      = appendBlocks (match b with | .text s => acc ++ s | _ => acc) rest := rfl

theorem appendBlocks_eq (acc : String) (content : List Block) :
    appendBlocks acc content = acc ++ concatAll (content.filterMap blockText) := by
  induction content generalizing acc with
  | nil => simp [appendBlocks, concatAll]
  | cons b rest ih =>
    rw [appendBlocks_cons]
    cases b <;>
      simp [blockText, ih, concatAll_cons, String.append_assoc]

theorem accumStep_go (events : List Event) (acc : String) :
    events.foldl accumStep acc = acc ++ concatAll (assistantTexts events) := by
  induction events generalizing acc with
  | nil => simp [assistantTexts, concatAll]
  | cons e rest ih =>
    cases e <;>
      simp [accumStep, assistantTexts, concatAll_append, ih, appendBlocks_eq,
        String.append_assoc]

/-- C1: for every valid event stream consumed by one process run, the
accumulated text built by `read_stdout` equals the concatenation, in arrival
order, of the text content of every assistant text block in the stream's
`assistant` events. -/
theorem c1_accumulated_text_concat (events : List Event) :
    accumulateText events = concatAll (assistantTexts events) := by
  simpa [accumulateText] using accumStep_go events ("")

/-- `MAX_PERMISSION_RETRIES` from `executor.py`. -/
def MAX_PERMISSION_RETRIES : Nat := 5

/-- `SKIP_PERMISSION_TOOLS` (executor.py lines 425-427): benign
workflow-management tools auto-approved without asking. -/
def SKIP_PERMISSION_TOOLS : List String :=
  ["EnterPlanMode", "ExitPlanMode", "TodoWrite", "TaskCreate", "TaskUpdate",
   "TaskList", "TaskGet", "NotebookEdit"]

/-- The denials naming the reserved question tool (line 436). -/
def questionDenialsOf (ds : List Denial) : List Denial :=
  ds.filter (fun d => d.tool_name == "AskUserQuestion")

/-- The remaining denials (line 437). -/
def otherDenialsOf (ds : List Denial) : List Denial :=
  ds.filter (fun d => d.tool_name != "AskUserQuestion")

/-- Real permission requests: denials that are neither the question tool nor
auto-approvable (line 466). -/
def realDenialsOf (ds : List Denial) : List Denial :=
  (otherDenialsOf ds).filter (fun d => !(SKIP_PERMISSION_TOOLS.contains d.tool_name))

/-- Auto-approved tool names among the denials (line 467; a Python set built
from the matching names, modelled as first-occurrence dedup). -/
def autoToolsOf (ds : List Denial) : List String :=
  (((otherDenialsOf ds).filter
      (fun d => SKIP_PERMISSION_TOOLS.contains d.tool_name)).map
    (fun d => d.tool_name)).dedup

/-- The environment one `execute_claude` permission-retry loop runs in:
whether the two callbacks were provided, what each callback yields at
iteration `i` (`questionAnswered i` records whether the user actually
answered, i.e. the callback returned a non-empty answer map rather than
timing out or cancelling), and the permission denials reported by the
continuation run started at iteration `i`. -/
structure LoopEnv where
  onQuestionPresent : Bool
  onPermissionPresent : Bool
  questionAnswered : Nat → Bool
  approvedTools : Nat → List String
  nextDenials : Nat → List Denial

/-- Whether an iteration synthesizes a question continuation text (lines
441-463): `question_answer_text` is set whenever a question denial is present
and the question callback exists — even when the user gave no answer, in
which case the text is the synthesized "user did not answer" message.  The
loop-control conditions consult only this presence; `questionAnswered` enters
only the wording of the continuation message. -/
def questionTextPresent (env : LoopEnv) (ds : List Denial) : Bool :=
  !(questionDenialsOf ds).isEmpty && env.onQuestionPresent

/-- The tools approved by the user at iteration `i` (lines 471-488): the
permission callback is consulted only when there are real denials and a
callback was provided; otherwise `approved_tools = []`. -/
def approvedAt (env : LoopEnv) (i : Nat) (ds : List Denial) : List String :=
  if realDenialsOf ds ≠ [] ∧ env.onPermissionPresent = true then
    env.approvedTools i
  else []

/-- The permission-retry loop of `execute_claude` (lines 430-547), counting
continuation-process invocations.  `fuel` is the remaining range of
`for retry in range(MAX_PERMISSION_RETRIES)`, `i` the iteration index, `ds`
the permission denials extracted from the previous run's `result` event.
The first zero branch embeds the `break` at lines 483-486 (user denied all
real requests and no question text exists), the second the `break` at lines
491-492 (nothing approved, nothing auto-approved, no question text). -/
def loopGo (env : LoopEnv) : Nat → Nat → List Denial → Nat
  | 0, _, _ => 0
  | fuel + 1, i, ds =>
    if ds = [] then 0
    else if realDenialsOf ds ≠ [] ∧ env.onPermissionPresent = true
        ∧ approvedAt env i ds = [] ∧ questionTextPresent env ds = false then 0
    else if approvedAt env i ds = [] ∧ autoToolsOf ds = []
        ∧ questionTextPresent env ds = false then 0
    else 1 + loopGo env fuel (i + 1) (env.nextDenials i)

/-- Number of continuation processes spawned by one `execute_claude` call's
retry loop. -/
def retryInvocations (env : LoopEnv) (ds : List Denial) : Nat :=
  loopGo env MAX_PERMISSION_RETRIES 0 ds

theorem loopGo_le_fuel (env : LoopEnv) :
    ∀ (fuel i : Nat) (ds : List Denial), loopGo env fuel i ds ≤ fuel := by
  intro fuel
  induction fuel with
  | zero => intro i ds; simp [loopGo]
  | succ n ih =>
    intro i ds
    simp only [loopGo]
    split
    · omega
    · split
      · omega
      · split
        · omega
        · have := ih (i + 1) (env.nextDenials i)
          omega

/-- A loop environment in which both callbacks exist, the user never answers
the clarifying question, and the user approves no tools. -/
def unansweredEnv : LoopEnv where
  onQuestionPresent := true
  onPermissionPresent := true
  questionAnswered := fun _ => false
  approvedTools := fun _ => []
  nextDenials := fun _ => []

/-- A single denial of the reserved question tool. -/
def askDenial : Denial := ⟨"AskUserQuestion", "payload"⟩

/-- C2 counterexample: with a single question denial, the question callback
present, the user answering nothing and approving nothing, iteration 0 newly
approves no tool, has no auto-approvable denial among the denials, and no
question was answered — yet the loop re-invokes the process once instead of
exiting early, because an unanswered question still synthesizes a "user did
not answer" continuation. -/
theorem c2_counterexample :
    approvedAt unansweredEnv 0 [askDenial] = []
      ∧ autoToolsOf [askDenial] = []
      ∧ unansweredEnv.questionAnswered 0 = false
      ∧ retryInvocations unansweredEnv [askDenial] = 1 := by
  refine ⟨by decide, by decide, rfl, by decide⟩

/-- C2 (amended): the permission-retry loop re-invokes the process at most 5
times, and exits early (re-invoking nothing further) on any iteration in
which no tool was newly approved, no auto-approvable tool was among the
denials, and no question continuation text was synthesized.  (A question
denial handled by the question callback keeps the loop retrying even when
the user gave no answer, since a "user did not answer" continuation is
synthesized.) -/
theorem c2_amended (env : LoopEnv) (ds : List Denial) :
    retryInvocations env ds ≤ 5
      ∧ ∀ (fuel i : Nat) (ds' : List Denial),
          approvedAt env i ds' = [] → autoToolsOf ds' = [] →
          questionTextPresent env ds' = false →
          loopGo env (fuel + 1) i ds' = 0 := by
  constructor
  · exact loopGo_le_fuel env MAX_PERMISSION_RETRIES 0 ds
  · intro fuel i ds' happ hauto hq
    simp only [loopGo]
    split
    · rfl
    · split
      · rfl
      · split
        · rfl
        · rename_i hcond
          exact absurd ⟨happ, hauto, hq⟩ hcond

/-- A loop environment with only the permission callback, approving nothing. -/
def deniedEnv : LoopEnv where
  onQuestionPresent := false
  onPermissionPresent := true
  questionAnswered := fun _ => false
  approvedTools := fun _ => []
  nextDenials := fun _ => []

/-- Witness for the amended C2 at a concrete input: a lone `Bash` denial that
the user declines, with no question callback, stops the loop at once. -/
theorem c2_amended_witness :
    approvedAt deniedEnv 0 [⟨"Bash", "x"⟩] = []
      ∧ autoToolsOf [⟨"Bash", "x"⟩] = []
      ∧ questionTextPresent deniedEnv [⟨"Bash", "x"⟩] = false
      ∧ retryInvocations deniedEnv [⟨"Bash", "x"⟩] ≤ 5
      ∧ loopGo deniedEnv 5 0 [⟨"Bash", "x"⟩] = 0 := by
  have h := c2_amended deniedEnv [⟨"Bash", "x"⟩]
  exact ⟨by decide, by decide, by decide, h.1,
    h.2 4 0 [⟨"Bash", "x"⟩] (by decide) (by decide) (by decide)⟩

/-- The tool-input payloads passed to the question callback in one retry
iteration (line 442: `question_denials[0].get("tool_input", {})` — only the
first question denial's payload, and only when the callback exists). -/
def forwardedQuestionPayloads (onQuestionPresent : Bool) (ds : List Denial) :
    List ToolInput :=
  match questionDenialsOf ds with
  | [] => []
  | d :: _ => if onQuestionPresent then [d.tool_input] else []

/-- C10: when a run's terminal result contains more than one denial of the
reserved question tool, the question callback is invoked at most once per
retry iteration and only with the payload of the first such denial; the
payloads of the remaining question denials are never forwarded. -/
theorem c10_first_question_only (onQ : Bool) (ds : List Denial)
    (d₁ d₂ : Denial) (rest : List Denial)
    (h : questionDenialsOf ds = d₁ :: d₂ :: rest) :
    (forwardedQuestionPayloads onQ ds).length ≤ 1
      ∧ (∀ p ∈ forwardedQuestionPayloads onQ ds, p = d₁.tool_input)
      ∧ (∀ d ∈ d₂ :: rest, d.tool_input ≠ d₁.tool_input →
          d.tool_input ∉ forwardedQuestionPayloads onQ ds) := by
  simp only [forwardedQuestionPayloads, h]
  cases onQ <;> simp

/-- Witness for C10 at a concrete input: two question denials with distinct
payloads; only the first payload is forwarded. -/
theorem c10_first_question_only_witness :
    (forwardedQuestionPayloads true
        [⟨"AskUserQuestion", "p1"⟩, ⟨"AskUserQuestion", "p2"⟩]).length ≤ 1
      ∧ ("p2" : ToolInput) ∉ forwardedQuestionPayloads true
          [⟨"AskUserQuestion", "p1"⟩, ⟨"AskUserQuestion", "p2"⟩] := by
  have h := c10_first_question_only true
    [⟨"AskUserQuestion", "p1"⟩, ⟨"AskUserQuestion", "p2"⟩]
    ⟨"AskUserQuestion", "p1"⟩ ⟨"AskUserQuestion", "p2"⟩ [] (by decide)
  exact ⟨h.1, h.2.2 ⟨"AskUserQuestion", "p2"⟩ (by simp) (by decide)⟩

/-- The errors list of the first `result` event flagged `is_error`
(executor.py lines 330-334; the loop breaks at the first such event,
skipping result events that are not flagged). -/
def firstErrorEvent (events : List Event) : Option (List String) :=
  events.findSome? fun e => match e with
    | .result isErr _ errs _ => if isErr then some errs else none
    | _ => none

/-- `_get_result_text` (lines 128-133): the result text of the first
`result` event, or the empty string when there is none. -/
def getResultText (events : List Event) : String :=
  match events.findSome? (fun e => match e with
    | .result _ rt _ _ => some rt
    | _ => none) with
  | some rt => rt
  | none => ""

/-- Exit classification of `_run_claude_process_inner` (lines 325-337):
`error` stays absent on exit code 0; otherwise it is the stderr text, then
(if that is empty) the joined error strings of the first `is_error` result
event or the "Unknown error" placeholder, then (if still empty) the generic
fallback naming the exit code. -/
def classifyExit (returncode : Int) (stderrText : String) (events : List Event) :
    Option String :=
  if returncode = 0 then none
  else
    let e₁ := stderrText
    let e₂ := if e₁ = "" then
        match firstErrorEvent events with
        | some errs =>
            if errs ≠ [] then String.intercalate ("; ") errs else "Unknown error"
        | none => ""
      else e₁
    let e₃ := if e₂ = "" then "Claude CLI exited with code " ++ toString returncode
      else e₂
    some e₃

/-- The error text claim C6 states, read literally: stderr, or if stderr is
empty the joined error strings of a result event flagged `is_error`, or if
no such event exists the generic fallback naming the exit code. -/
def claimedExitError (returncode : Int) (stderrText : String)
    (events : List Event) : Option String :=
  if returncode = 0 then none
  else some (
    if stderrText ≠ "" then stderrText
    else match firstErrorEvent events with
      | some errs => String.intercalate ("; ") errs
      | none => "Claude CLI exited with code " ++ toString returncode)

/-- First non-empty string in the list, else the default. -/
def firstNonEmptyD : List String → String → String
  | [], d => d
  | s :: rest, d => if s ≠ "" then s else firstNonEmptyD rest d

/-- The structured error text contributed by the event stream: for the first
`is_error` result event, the joined error strings when any are listed, else
the "Unknown error" placeholder; empty when no such event exists. -/
def structuredErrorText (events : List Event) : String :=
  match firstErrorEvent events with
  | some errs => if errs ≠ [] then String.intercalate ("; ") errs else "Unknown error"
  | none => ""

/-- Amended C6 specification: on non-zero exit the error is the first
non-empty of the stderr text and the structured error text, with the generic
fallback naming the exit code as last resort; on exit 0 there is no error. -/
def amendedExitError (returncode : Int) (stderrText : String)
    (events : List Event) : Option String :=
  if returncode = 0 then none
  else some (firstNonEmptyD [stderrText, structuredErrorText events]
      ("Claude CLI exited with code " ++ toString returncode))

/-- C6 counterexample: exit code 1, empty stderr, and a result event flagged
`is_error` with an empty error list — the code reports "Unknown error",
which is neither the stderr text, nor the joined error strings (empty), nor
the generic fallback naming the exit code. -/
theorem c6_counterexample :
    classifyExit 1 ("") [Event.result true ("") [] []] = some ("Unknown error")
      ∧ claimedExitError 1 ("") [Event.result true ("") [] []] = some ("")
      ∧ some ("Unknown error") ≠ (some ("") : Option String) := by
  refine ⟨by decide, by decide, by decide⟩

/-- C6 (amended): exit code 0 yields no error; non-zero exit yields the
first non-empty of the captured stderr text and the structured error text of
the first `is_error` result event (joined error strings when present, else
the "Unknown error" placeholder), with the generic fallback naming the exit
code as last resort. -/
theorem c6_amended (rc : Int) (st : String) (events : List Event) :
    classifyExit rc st events = amendedExitError rc st events := by
  have hu : ¬("Unknown error" : String) = "" := by decide
  by_cases hrc : rc = 0
  · simp [classifyExit, amendedExitError, hrc]
  · by_cases hst : st = ""
    · subst hst
      cases hfe : firstErrorEvent events with
      | none =>
        simp [classifyExit, amendedExitError, structuredErrorText, hfe, hrc,
          firstNonEmptyD]
      | some errs =>
        by_cases herrs : errs = []
        · simp [classifyExit, amendedExitError, structuredErrorText, hfe, hrc,
            herrs, hu, firstNonEmptyD]
        · by_cases hjoin : String.intercalate ("; ") errs = "" <;>
            simp [classifyExit, amendedExitError, structuredErrorText, hfe,
              hrc, herrs, hjoin, firstNonEmptyD]
    · simp [classifyExit, amendedExitError, structuredErrorText, hrc, hst,
        firstNonEmptyD]

/-- The input of one `_run_claude_process_inner` invocation, for runs that do
not hit the read or wall-clock timeouts: the raw stdout lines (each either a
parsed stream-json event, or `none` for a non-JSON line that is logged and
skipped), the poll index from which the cooperative stop signal is observed
set (the signal is polled once before each read attempt, including the read
that would return EOF), whether an output-update callback was provided, and
the process's exit code and captured stderr. -/
structure InnerInput where
  lines : List (Option Event)
  stopAfter : Option Nat
  hasCallback : Bool
  returncode : Int
  stderrText : String

/-- The observable outcome of `_run_claude_process_inner`: the returned
tuple `(events, accumulated_text, exit_code, error, was_stopped)` plus
whether the spawned process was killed, whether it was waited on before
returning, and whether the final output-update was flushed. -/
structure InnerOutcome where
  events : List Event
  text : String
  exitCode : Int
  error : Option String
  wasStopped : Bool
  killed : Bool
  waited : Bool
  finalFlush : Bool
deriving DecidableEq

/-- The stdout lines consumed before the read loop ends: all of them at EOF,
or the first `k` when the stop signal is observed at poll `k`. -/
def consumedLines (inp : InnerInput) : List (Option Event) :=
  match inp.stopAfter with
  | some k => inp.lines.take k
  | none => inp.lines

/-- Whether the stop signal is observed before the stream ends (the poll at
index `lines.length` happens before the EOF read, so a signal set there is
still observed). -/
def stopObserved (inp : InnerInput) : Bool :=
  match inp.stopAfter with
  | some k => decide (k ≤ inp.lines.length)
  | none => false

/-- `_run_claude_process_inner` on runs without read or wall-clock timeouts
(lines 166-337): consume stdout, then either the stopped branch — kill,
wait, flush the final output-update only when a callback exists and text
accumulated, return the cancellation tuple (lines 300-309) — or the normal
branch — wait, same conditional flush, classify the exit (lines 311-337). -/
def runInner (inp : InnerInput) : InnerOutcome :=
  let events := (consumedLines inp).filterMap id
  let text := accumulateText events
  if stopObserved inp then
    { events := events, text := text, exitCode := -1,
      error := some ("Остановлено пользователем"), wasStopped := true,
      killed := true, waited := true,
      finalFlush := inp.hasCallback && (text != "") }
  else
    { events := events, text := text, exitCode := inp.returncode,
      error := classifyExit inp.returncode inp.stderrText events,
      wasStopped := false, killed := false, waited := true,
      finalFlush := inp.hasCallback && (text != "") }

/-- How `execute_claude` dispatches the first run's outcome. -/
inductive FirstRunDispatch where
  | cancelledRun (text : String)
  | failedRun (text : String) (err : String)
  | proceed
deriving DecidableEq

/-- The dispatch on the first run's outcome (lines 406-422): the
cancellation branch is tested before the failure branch, so a stopped run is
reported as cancelled and its error text is never classified as a run
failure. -/
def dispatchFirstRun (r : InnerOutcome) : FirstRunDispatch :=
  if r.wasStopped then .cancelledRun r.text
  else match r.error with
    | some e =>
        if e ≠ "" ∧ r.exitCode ≠ 0 then
          .failedRun (if getResultText r.events ≠ "" then getResultText r.events
            else r.text) e
        else .proceed
    | none => .proceed

/-- C3 counterexample: cancellation observed before any output, with an
output-update callback provided — the run is stopped and reported as
cancelled, but no final output-update is flushed (the flush at lines 303-307
is guarded by `accumulated_text` being non-empty), contradicting the claim
that a final output-update is always flushed. -/
theorem c3_counterexample :
    (runInner ⟨[], some 0, true, 0, ""⟩).wasStopped = true
      ∧ (runInner ⟨[], some 0, true, 0, ""⟩).killed = true
      ∧ (runInner ⟨[], some 0, true, 0, ""⟩).finalFlush = false := by
  refine ⟨by decide, by decide, by decide⟩

/-- C3 (amended): whenever the cancellation signal is observed (it is polled
before each read attempt), the spawned process is killed and waited on
before the call returns, the result reports `was_stopped = true`, the
orchestrator dispatches it as a cancellation — never as a run failure — and
the final output-update is flushed exactly when a callback was provided and
some text had accumulated. -/
theorem c3_amended (inp : InnerInput) (k : Nat)
    (hk : inp.stopAfter = some k) (hle : k ≤ inp.lines.length) :
    (runInner inp).wasStopped = true
      ∧ (runInner inp).killed = true
      ∧ (runInner inp).waited = true
      ∧ ((runInner inp).finalFlush = true
          ↔ (inp.hasCallback = true ∧ (runInner inp).text ≠ ""))
      ∧ dispatchFirstRun (runInner inp) = .cancelledRun (runInner inp).text := by
  have hobs : stopObserved inp = true := by simp [stopObserved, hk, hle]
  refine ⟨?_, ?_, ?_, ?_, ?_⟩ <;>
    simp [runInner, hobs, dispatchFirstRun, Bool.and_eq_true, bne_iff_ne]

/-- Witness for the amended C3 at a concrete input: one assistant text line
consumed, stop observed at the next poll — killed, waited, cancelled, and
the final flush happens because text accumulated and a callback exists. -/
theorem c3_amended_witness :
    (runInner ⟨[some (.assistant [.text ("hi")])], some 1, true, 0, ""⟩).wasStopped = true
      ∧ (runInner ⟨[some (.assistant [.text ("hi")])], some 1, true, 0, ""⟩).killed = true
      ∧ (runInner ⟨[some (.assistant [.text ("hi")])], some 1, true, 0, ""⟩).finalFlush = true := by
  have h := c3_amended ⟨[some (.assistant [.text ("hi")])], some 1, true, 0, ""⟩ 1
    rfl (by decide)
  exact ⟨h.1, h.2.1, by decide⟩

/-- A file path, as its components relative to the workspace directory. -/
abbrev WPath := List String

/-- `_SKIP_DIRS` (executor.py line 53). -/
def SKIP_DIRS : List String :=
  [".git", "node_modules", "__pycache__", ".venv", ".claude"]

/-- Whether the `os.walk` traversal with `_SKIP_DIRS` pruning (lines 62-65)
reaches this file: no directory component (every component but the final
file name) is a skipped directory name. -/
def walkReaches (p : WPath) : Bool :=
  p.dropLast.all (fun c => !(SKIP_DIRS.contains c))

/-- `get_workspace_files` (lines 56-66) on an abstract file system, given as
the finite set of all file paths under the workspace directory. -/
def get_workspace_files (fs : Finset WPath) : Finset WPath :=
  fs.filter (fun p => walkReaches p = true)

/-- `pathlib`'s suffix of a file name: the part from the last dot on, unless
that dot is the first or the last character of the name. -/
def pySuffix (name : String) : String :=
  let cs := name.data
  let k := cs.reverse.takeWhile (fun c => c != '.')
  if k.length = cs.length then ""
  else if 0 < cs.length - 1 - k.length ∧ 0 < k.length then
    String.mk ('.' :: k.reverse)
  else ""

/-- Python `str.startswith`: the second string's characters are a prefix of
the first string's characters. -/
def pyStartsWith (s pre : String) : Bool := pre.data.isPrefixOf s.data

/-- The post-diff filter of `execute_claude` (lines 560-564): drop files
with any path component starting with ".claude" and files whose suffix is
".log" or ".tmp". -/
def keepCreatedFile (p : WPath) : Bool :=
  !(p.any (fun part => pyStartsWith part (".claude")))
    && !([".log", ".tmp"].contains (pySuffix (p.getLastD (""))))

/-- The created-files computation of `execute_claude` (lines 555-564):
workspace snapshot after the run minus snapshot before it, then the
`.claude`-component / extension filter. -/
def createdFiles (before after : Finset WPath) : Finset WPath :=
  (get_workspace_files after \ get_workspace_files before).filter
    (fun p => keepCreatedFile p = true)

/-- The C4 claim's specification: the plain snapshot set difference,
excluding files inside skipped internal/version-control directories, files
with a path component starting with ".claude", and files with ".log" or
".tmp" extensions. -/
def createdFilesSpec (before after : Finset WPath) : Finset WPath :=
  (after \ before).filter
    (fun p => walkReaches p = true ∧ keepCreatedFile p = true)

/-- C4: the reported created files are exactly the snapshot set difference
filtered by the three exclusions; in particular, a run that creates only
`out.txt` reports exactly `{out.txt}`. -/
theorem c4_created_files (before after : Finset WPath)
    (hout : [("out.txt" : String)] ∉ before) :
    createdFiles before after = createdFilesSpec before after
      ∧ createdFiles before (insert [("out.txt" : String)] before)
          = {[("out.txt" : String)]} := by
  have hmain : ∀ b a : Finset WPath, createdFiles b a = createdFilesSpec b a := by
    intro b a
    ext p
    simp only [createdFiles, createdFilesSpec, get_workspace_files,
      Finset.mem_filter, Finset.mem_sdiff]
    tauto
  refine ⟨hmain before after, ?_⟩
  rw [hmain]
  ext p
  simp only [createdFilesSpec, Finset.mem_filter, Finset.mem_sdiff,
    Finset.mem_insert, Finset.mem_singleton]
  constructor
  · rintro ⟨⟨hp | hp, hnb⟩, _⟩
    · exact hp
    · exact absurd hp hnb
  · rintro rfl
    exact ⟨⟨Or.inl rfl, hout⟩, by decide, by decide⟩

/-- Witness for C4 at a concrete input: starting from an empty workspace,
creating exactly `out.txt` reports exactly `{out.txt}`. -/
theorem c4_created_files_witness :
    ([("out.txt" : String)] ∉ (∅ : Finset WPath))
      ∧ createdFiles ∅ (insert [("out.txt" : String)] ∅)
          = {[("out.txt" : String)]} := by
  have h := c4_created_files (∅ : Finset WPath) ∅ (by decide)
  exact ⟨by decide, h.2⟩

/-- Whitespace as stripped by Python's `str.strip()` (the ASCII whitespace
characters). -/
def isPyWS (c : Char) : Bool :=
  c = ' ' || c = '\t' || c = '\n' || c = '\r' || c = '\x0b' || c = '\x0c'

/-- Python `str.strip()`: drop leading and trailing whitespace. -/
def pyStrip (s : String) : String :=
  String.mk (((s.data.dropWhile isPyWS).reverse.dropWhile isPyWS).reverse)

/-- Python truthiness of a string: non-empty. -/
def pyTruthy (s : String) : Bool := s != ""

/-- The retry-merge of `execute_claude` (lines 522-538): if the continuation
produced text that is non-empty and non-whitespace, either append its
stripped form after the stripped first-run text with a blank-line separator
(when the first-run text is itself non-empty and non-whitespace) or replace
the first-run text with it; otherwise keep the first-run text. -/
def mergeRetryText (prev_accumulated text_new : String) : String :=
  if pyTruthy text_new && pyTruthy (pyStrip text_new) then
    if pyTruthy prev_accumulated && pyTruthy (pyStrip prev_accumulated) then
      pyStrip prev_accumulated ++ ("\n\n") ++ pyStrip text_new
    else text_new
  else prev_accumulated

/-- C5 counterexample: the prior accumulated text " " is non-empty and the
continuation text "b" is non-whitespace, but the merged text is "b" alone:
it is not the prior text followed by a newline separation followed by the
continuation — it contains no newline at all and drops the prior text. -/
theorem c5_counterexample :
    mergeRetryText (" ") ("b") = "b"
      ∧ mergeRetryText (" ") ("b") ≠ " " ++ ("\n\n") ++ "b"
      ∧ ('\n' ∉ (mergeRetryText (" ") ("b")).data) := by
  refine ⟨by decide, by decide, by decide⟩

/-- C5 (amended): if the continuation produced non-whitespace text and the
prior accumulated text is itself non-whitespace, the merged text is the
stripped prior text, a blank-line separator, then the stripped continuation
text; if the continuation text is empty or whitespace-only, the merged text
is the prior text unchanged; if the prior text is empty or whitespace-only
while the continuation is non-whitespace, the merged text is the
continuation unchanged. -/
theorem c5_amended (prev_accumulated text_new : String) :
    (pyStrip text_new ≠ "" → pyStrip prev_accumulated ≠ "" →
        mergeRetryText prev_accumulated text_new
          = pyStrip prev_accumulated ++ ("\n\n") ++ pyStrip text_new)
      ∧ (pyStrip text_new = "" →
          mergeRetryText prev_accumulated text_new = prev_accumulated)
      ∧ (pyStrip text_new ≠ "" → pyStrip prev_accumulated = "" →
          mergeRetryText prev_accumulated text_new = text_new) := by
  refine ⟨?_, ?_, ?_⟩
  · intro hn hp
    have hn' : text_new ≠ "" := fun h => hn (by rw [h]; rfl)
    have hp' : prev_accumulated ≠ "" := fun h => hp (by rw [h]; rfl)
    simp [mergeRetryText, pyTruthy, bne_iff_ne, hn, hp, hn', hp']
  · intro hn
    simp [mergeRetryText, pyTruthy, hn]
  · intro hn hp
    have hn' : text_new ≠ "" := fun h => hn (by rw [h]; rfl)
    simp [mergeRetryText, pyTruthy, bne_iff_ne, hn, hp, hn']

/-- Witness for the amended C5 at a concrete input: prior "a " and
continuation " b" merge to "a", a blank line, "b". -/
theorem c5_amended_witness :
    pyStrip (" b") ≠ "" ∧ pyStrip ("a ") ≠ ""
      ∧ mergeRetryText ("a ") (" b") = "a\n\nb" := by
  have h := (c5_amended ("a ") (" b")).1 (by decide) (by decide)
  exact ⟨by decide, by decide, by rw [h]; decide⟩

/-- One question of an `AskUserQuestion` payload: its text, its option
labels, and the multi-select flag. -/
structure QQuestion where
  question : String
  options : List String
  multiSelect : Bool
deriving DecidableEq

/-- The state of one `QuestionRequest` (question_handler.py lines 8-23)
together with its future: the question list, the per-question answer map,
the per-question multi-select selections (a Python set of option indices),
and the future's resolution — `none` while the request is pending in
`_pending`, `some r` once the future was resolved with the answer map `r`
and the request popped from the registry. -/
structure QReqState where
  questions : List QQuestion
  answers : List (Nat × String)
  multi_selections : List (Nat × Finset Nat)
  done : Option (List (Nat × String))
deriving DecidableEq

/-- Python `dict.__setitem__` on an association list: replace the value at
an existing key, else append the new binding. -/
def dictInsert {β : Type} (k : Nat) (v : β) (m : List (Nat × β)) :
    List (Nat × β) :=
  if m.any (fun p => p.1 == k) then
    m.map (fun p => if p.1 == k then (k, v) else p)
  else m ++ [(k, v)]

/-- Python `dict.get(k, d)` on an association list. -/
def dictGetD {β : Type} (m : List (Nat × β)) (k : Nat) (d : β) : β :=
  match m.find? (fun p => p.1 == k) with
  | some p => p.2
  | none => d

/-- Whether question index `k` has an entry in the answer map. -/
def answeredIdx (m : List (Nat × String)) (k : Nat) : Bool :=
  m.any (fun p => p.1 == k)

/-- `QuestionManager.create_request` (lines 34-45): fresh request with an
empty answer map, empty selections, and a pending future. -/
def create_request (questions : List QQuestion) : QReqState :=
  ⟨questions, [], [], none⟩

/-- `QuestionRequest.all_answered` (lines 22-23): compares the *count* of
stored answers with the count of questions. -/
def all_answered (s : QReqState) : Bool :=
  s.answers.length == s.questions.length

/-- `QuestionManager.set_answer` (lines 50-60) restricted to one request's
state: a missing request (already resolved and popped) returns `false`
untouched; otherwise the answer is stored under `question_idx` and, when
`all_answered` holds, the future is resolved with the answer map and the
request popped. -/
def set_answer (s : QReqState) (question_idx : Nat) (answer : String) :
    Bool × QReqState :=
  match s.done with
  | some _ => (false, s)
  | none =>
    let answers' := dictInsert question_idx answer s.answers
    if answers'.length == s.questions.length then
      (true, { s with answers := answers', done := some answers' })
    else
      (false, { s with answers := answers' })

/-- `QuestionManager.toggle_multi_select` (lines 62-74): on a pending
request, toggle `option_idx` in the selection set of `question_idx`
(creating the empty set first when the key is absent) and return the current
selections; on a missing request return the empty set untouched. -/
def toggle_multi_select (s : QReqState) (question_idx option_idx : Nat) :
    Finset Nat × QReqState :=
  match s.done with
  | some _ => (∅, s)
  | none =>
    let cur := dictGetD s.multi_selections question_idx ∅
    let cur' := if option_idx ∈ cur then cur.erase option_idx
      else insert option_idx cur
    (cur', { s with
      multi_selections := dictInsert question_idx cur' s.multi_selections })

/-- `QuestionManager.finalize_multi_select` (lines 76-86): on a pending
request, join the labels of the selected options of `question_idx` (sorted
by option index, skipping out-of-range option indices) or use the
"nothing selected" placeholder, then delegate to `set_answer`; a missing
request returns `false` untouched; an out-of-range `question_idx` raises
`IndexError` in the source, embedded here as `none`. -/
def finalize_multi_select (s : QReqState) (question_idx : Nat) :
    Option (Bool × QReqState) :=
  match s.done with
  | some _ => some (false, s)
  | none =>
    match s.questions.get? question_idx with
    | none => none
    | some q =>
      let sel := dictGetD s.multi_selections question_idx ∅
      let labels := (sel.sort (· ≤ ·)).filterMap (fun i => q.options.get? i)
      let answer := if labels ≠ [] then String.intercalate (", ") labels
        else "(ничего не выбрано)"
      some (set_answer s question_idx answer)

/-- One registry operation addressed to a question request. -/
inductive QOp where
  | setAnswer (question_idx : Nat) (answer : String)
  | toggle (question_idx option_idx : Nat)
  | finalize (question_idx : Nat)
deriving DecidableEq

/-- Apply one operation; `none` embeds a raised `IndexError`. -/
def applyQOp (s : QReqState) : QOp → Option QReqState
  | .setAnswer i a => some (set_answer s i a).2
  | .toggle i o => some (toggle_multi_select s i o).2
  | .finalize i => (finalize_multi_select s i).map (fun p => p.2)

/-- Run a sequence of registry operations on a request's state. -/
def runQOps : QReqState → List QOp → Option QReqState
  | s, [] => some s
  | s, op :: rest =>
    match applyQOp s op with
    | none => none
    | some s' => runQOps s' rest

/-- Whether an operation only addresses in-range question indices. -/
def qopInRange (n : Nat) : QOp → Bool
  | .setAnswer i _ => decide (i < n)
  | .toggle _ _ => true
  | .finalize i => decide (i < n)

theorem dictInsert_length {β : Type} (k : Nat) (v : β) (m : List (Nat × β)) :
    (dictInsert k v m).length
      = if m.any (fun p => p.1 == k) then m.length else m.length + 1 := by
  unfold dictInsert
  split <;> simp_all

theorem mem_dictInsert {β : Type} {k : Nat} {v : β} {m : List (Nat × β)} :
    ∀ p ∈ dictInsert k v m, p = (k, v) ∨ p ∈ m := by
  intro p hp
  unfold dictInsert at hp
  split at hp
  · rw [List.mem_map] at hp
    obtain ⟨q, hq, rfl⟩ := hp
    by_cases hqk : (q.1 == k) = true
    · left; simp [hqk]
    · right; simpa [hqk] using hq
  · rw [List.mem_append] at hp
    rcases hp with h | h
    · right; exact h
    · left; simpa using h

theorem fst_map_replace {β : Type} (k : Nat) (v : β) (m : List (Nat × β)) :
    (m.map (fun p => if p.1 == k then (k, v) else p)).map Prod.fst
      = m.map Prod.fst := by
  rw [List.map_map]
  apply List.map_congr_left
  intro p _
  by_cases hp : p.1 = k
  · simp [hp]
  · simp [hp]

theorem dictInsert_nodup_keys {β : Type} (k : Nat) (v : β) (m : List (Nat × β))
    (h : (m.map Prod.fst).Nodup) :
    ((dictInsert k v m).map Prod.fst).Nodup := by
  unfold dictInsert
  by_cases hk : (m.any (fun p => p.1 == k)) = true
  · rw [if_pos hk, fst_map_replace]
    exact h
  · rw [if_neg hk, List.map_append]
    have hkmem : k ∉ m.map Prod.fst := by
      intro hmem
      rw [List.mem_map] at hmem
      obtain ⟨p, hp, hpk⟩ := hmem
      exact hk (List.any_eq_true.mpr ⟨p, hp, by simp [hpk]⟩)
    simp [List.nodup_append, h, hkmem]

theorem any_fst_map_replace {β : Type} (k j : Nat) (v : β) (m : List (Nat × β)) :
    (m.map (fun p => if p.1 == k then (k, v) else p)).any (fun p => p.1 == j)
      = m.any (fun p => p.1 == j) := by
  induction m with
  | nil => rfl
  | cons q rest ih =>
    by_cases hq : (q.1 == k) = true
    · have hq' : q.1 = k := (beq_iff_eq).mp hq
      simp only [List.map_cons, List.any_cons, ih, if_pos hq]
      rw [hq']
    · simp only [List.map_cons, List.any_cons, ih, if_neg hq]

theorem answeredIdx_dictInsert (k : Nat) (v : String)
    (m : List (Nat × String)) (j : Nat) :
    answeredIdx (dictInsert k v m) j = (answeredIdx m j || k == j) := by
  unfold answeredIdx dictInsert
  by_cases hk : (m.any (fun p => p.1 == k)) = true
  · rw [if_pos hk, any_fst_map_replace]
    by_cases hkj : (k == j) = true
    · have : k = j := (beq_iff_eq).mp hkj
      subst this
      simp [hk]
    · simp [hkj]
  · rw [if_neg hk, List.any_append]
    simp

theorem find?_key_map_replace {β : Type} (k j : Nat) (v : β)
    (m : List (Nat × β)) (hne : j ≠ k) :
    (m.map (fun p => if p.1 == k then (k, v) else p)).find? (fun p => p.1 == j)
      = m.find? (fun p => p.1 == j) := by
  have hkj : k ≠ j := Ne.symm hne
  induction m with
  | nil => rfl
  | cons q rest ih =>
    rw [List.map_cons, List.find?_cons, List.find?_cons]
    by_cases hq : q.1 = k
    · have e1 : ((if q.1 == k then (k, v) else q) : Nat × β) = (k, v) := by
        simp [hq]
      have e2 : (((k, v) : Nat × β).1 == j) = false := by simp [hkj]
      have e3 : (q.1 == j) = false := by simp [hq, hkj]
      rw [e1, e2, e3]
      exact ih
    · have e1 : ((if q.1 == k then (k, v) else q) : Nat × β) = q := by simp [hq]
      rw [e1]
      cases hqj : (q.1 == j) with
      | false => exact ih
      | true => rfl

theorem find?_map_replace_self {β : Type} (k : Nat) (v : β)
    (m : List (Nat × β)) (h : (m.any (fun p => p.1 == k)) = true) :
    (m.map (fun p => if p.1 == k then (k, v) else p)).find? (fun p => p.1 == k)
      = some (k, v) := by
  induction m with
  | nil => simp at h
  | cons q rest ih =>
    rw [List.map_cons, List.find?_cons]
    by_cases hq : q.1 = k
    · have e1 : ((if q.1 == k then (k, v) else q) : Nat × β) = (k, v) := by
        simp [hq]
      rw [e1]
      simp
    · have h' : (rest.any (fun p => p.1 == k)) = true := by
        simpa [List.any_cons, hq] using h
      have e1 : ((if q.1 == k then (k, v) else q) : Nat × β) = q := by simp [hq]
      have e3 : (q.1 == k) = false := by simp [hq]
      rw [e1, e3]
      exact ih h'

theorem dictGetD_dictInsert_self {β : Type} (k : Nat) (v : β)
    (m : List (Nat × β)) (d : β) :
    dictGetD (dictInsert k v m) k d = v := by
  unfold dictInsert dictGetD
  by_cases hk : (m.any (fun p => p.1 == k)) = true
  · rw [if_pos hk, find?_map_replace_self k v m hk]
  · rw [if_neg hk]
    have hnone : m.find? (fun p => p.1 == k) = none := by
      rw [List.find?_eq_none]
      intro x hx hpx
      exact hk (List.any_eq_true.mpr ⟨x, hx, hpx⟩)
    rw [List.find?_append, hnone]
    simp [List.find?]

theorem dictGetD_dictInsert_ne {β : Type} (k j : Nat) (v : β)
    (m : List (Nat × β)) (d : β) (hne : j ≠ k) :
    dictGetD (dictInsert k v m) j d = dictGetD m j d := by
  unfold dictInsert dictGetD
  by_cases hk : (m.any (fun p => p.1 == k)) = true
  · rw [if_pos hk, find?_key_map_replace k j v m hne]
  · rw [if_neg hk, List.find?_append]
    cases hf : m.find? (fun p => p.1 == j) with
    | some p => simp [hf]
    | none => simp [hf, Ne.symm hne]

/-- Invariant of a question request's states reachable by in-range
operations from a fresh request with `n` questions: answer keys are
distinct, in range, at most `n` of them, strictly fewer while the future is
pending, and a resolved future carries exactly the full answer map. -/
def QInv (n : Nat) (s : QReqState) : Prop :=
  s.questions.length = n
    ∧ (s.answers.map Prod.fst).Nodup
    ∧ (∀ p ∈ s.answers, p.1 < n)
    ∧ s.answers.length ≤ n
    ∧ (s.done = none → s.answers.length < n)
    ∧ (∀ m, s.done = some m → m = s.answers ∧ s.answers.length = n)

theorem set_answer_inv {n : Nat} {s : QReqState} (i : Nat) (a : String)
    (hinv : QInv n s) (hi : i < n) : QInv n (set_answer s i a).2 := by
  unfold set_answer
  cases hd : s.done with
  | some m => simpa using hinv
  | none =>
    obtain ⟨hq, hnd, hlt, hle, hlt2, hdone⟩ := hinv
    have hlen : s.answers.length < n := hlt2 hd
    have hmem' : ∀ p ∈ dictInsert i a s.answers, p.1 < n := by
      intro p hp
      rcases mem_dictInsert p hp with h | h
      · rw [h]; exact hi
      · exact hlt p h
    have hnd' := dictInsert_nodup_keys i a s.answers hnd
    have hlen' : (dictInsert i a s.answers).length ≤ n := by
      rw [dictInsert_length]
      split <;> omega
    dsimp only
    by_cases hfull : ((dictInsert i a s.answers).length == s.questions.length) = true
    · rw [if_pos hfull]
      have hlq : (dictInsert i a s.answers).length = n := by
        rw [beq_iff_eq] at hfull
        omega
      refine ⟨hq, hnd', hmem', hlen', ?_, ?_⟩
      · intro hcontra
        exact Option.noConfusion hcontra
      · intro m hm
        have hmEq : (some (dictInsert i a s.answers) : Option _) = some m := hm
        exact ⟨(Option.some.inj hmEq).symm, hlq⟩
    · rw [if_neg hfull]
      refine ⟨hq, hnd', hmem', hlen', ?_, ?_⟩
      · intro _
        have hne : (dictInsert i a s.answers).length ≠ n := by
          intro he
          exact hfull (by rw [beq_iff_eq]; omega)
        show (dictInsert i a s.answers).length < n
        omega
      · intro m hm
        have hm' : (none : Option (List (Nat × String))) = some m := hm
        exact Option.noConfusion hm'

theorem applyQOp_inv {n : Nat} {s s' : QReqState} {op : QOp}
    (hinv : QInv n s) (hop : qopInRange n op = true)
    (happ : applyQOp s op = some s') : QInv n s' := by
  cases op with
  | setAnswer i a =>
    have hi : i < n := by simpa [qopInRange] using hop
    have hs : s' = (set_answer s i a).2 := by
      simpa [applyQOp] using happ.symm
    rw [hs]
    exact set_answer_inv i a hinv hi
  | toggle i o =>
    have hs : s' = (toggle_multi_select s i o).2 := by
      simpa [applyQOp] using happ.symm
    rw [hs]
    unfold toggle_multi_select
    cases hd : s.done with
    | some m => simpa using hinv
    | none =>
      obtain ⟨hq, hnd, hlt, hle, hlt2, hdone⟩ := hinv
      dsimp only
      refine ⟨hq, hnd, hlt, hle, ?_, ?_⟩
      · intro _; exact hlt2 hd
      · intro m hm
        have hm' : (none : Option (List (Nat × String))) = some m := hm
        exact Option.noConfusion hm'
  | finalize i =>
    have hi : i < n := by simpa [qopInRange] using hop
    simp only [applyQOp, finalize_multi_select] at happ
    cases hd : s.done with
    | some m =>
      rw [hd] at happ
      simp only [Option.map_some', Option.some.injEq] at happ
      rw [← happ]
      exact hinv
    | none =>
      rw [hd] at happ
      cases hg : s.questions.get? i with
      | none =>
        exfalso
        rw [List.get?_eq_none] at hg
        have hq1 := hinv.1
        omega
      | some q =>
        rw [hg] at happ
        simp only [Option.map_some', Option.some.injEq] at happ
        rw [← happ]
        exact set_answer_inv i _ hinv hi

theorem runQOps_inv {n : Nat} : ∀ (ops : List QOp) (s s' : QReqState),
    QInv n s → (∀ op ∈ ops, qopInRange n op = true) →
    runQOps s ops = some s' → QInv n s' := by
  intro ops
  induction ops with
  | nil =>
    intro s s' hinv _ hrun
    simp only [runQOps, Option.some.injEq] at hrun
    rw [← hrun]
    exact hinv
  | cons op rest ih =>
    intro s s' hinv hops hrun
    simp only [runQOps] at hrun
    cases happ : applyQOp s op with
    | none => rw [happ] at hrun; simp at hrun
    | some s₁ =>
      rw [happ] at hrun
      exact ih s₁ s' (applyQOp_inv hinv (hops op (by simp)) happ)
        (fun o ho => hops o (by simp [ho])) hrun

theorem keys_complete (n : Nat) (m : List (Nat × String))
    (hnd : (m.map Prod.fst).Nodup) (hlt : ∀ p ∈ m, p.1 < n)
    (hlen : m.length = n) : ∀ k, k < n → answeredIdx m k = true := by
  intro k hk
  have hcard : (m.map Prod.fst).toFinset.card = n := by
    rw [List.toFinset_card_of_nodup hnd, List.length_map, hlen]
  have hsub : (m.map Prod.fst).toFinset ⊆ Finset.range n := by
    intro x hx
    rw [List.mem_toFinset, List.mem_map] at hx
    obtain ⟨p, hp, hpx⟩ := hx
    exact Finset.mem_range.mpr (hpx ▸ hlt p hp)
  have heq : (m.map Prod.fst).toFinset = Finset.range n :=
    Finset.eq_of_subset_of_card_le hsub (by rw [hcard, Finset.card_range])
  have hkmem : k ∈ (m.map Prod.fst).toFinset := by
    rw [heq]
    exact Finset.mem_range.mpr hk
  rw [List.mem_toFinset, List.mem_map] at hkmem
  obtain ⟨p, hp, hpk⟩ := hkmem
  unfold answeredIdx
  rw [List.any_eq_true]
  exact ⟨p, hp, by simp [hpk]⟩

theorem keys_full_length (n : Nat) (m : List (Nat × String))
    (hall : ∀ k, k < n → answeredIdx m k = true) : n ≤ m.length := by
  have hsub2 : Finset.range n ⊆ (m.map Prod.fst).toFinset := by
    intro x hx
    have hax := hall x (Finset.mem_range.mp hx)
    unfold answeredIdx at hax
    rw [List.any_eq_true] at hax
    obtain ⟨p, hp, hpx⟩ := hax
    rw [List.mem_toFinset, List.mem_map]
    exact ⟨p, hp, by simpa using hpx⟩
  calc n = (Finset.range n).card := (Finset.card_range n).symm
    _ ≤ (m.map Prod.fst).toFinset.card := Finset.card_le_card hsub2
    _ ≤ (m.map Prod.fst).length := (m.map Prod.fst).toFinset_card_le
    _ = m.length := List.length_map m Prod.fst

/-- C7 (amended): for a request with at least one question and any sequence
of registry operations addressing only in-range question indices, the
outcome future completes if and only if every question index in the question
list has an answer, and when it completes it carries exactly the answer
map.  (The source's `all_answered` compares answer *counts* with question
counts, which coincides with index coverage only for in-range indices.) -/
theorem c7_amended (questions : List QQuestion) (ops : List QOp)
    (s : QReqState) (hn : 0 < questions.length)
    (hops : ∀ op ∈ ops, qopInRange questions.length op = true)
    (hrun : runQOps (create_request questions) ops = some s) :
    (s.done.isSome = true
        ↔ ∀ k, k < questions.length → answeredIdx s.answers k = true)
      ∧ (∀ m, s.done = some m → m = s.answers) := by
  have hinv0 : QInv questions.length (create_request questions) := by
    refine ⟨rfl, by simp [create_request], by simp [create_request],
      by simp [create_request], ?_, ?_⟩
    · intro _; simpa [create_request] using hn
    · intro m hm; simp [create_request] at hm
  have hinv := runQOps_inv ops (create_request questions) s hinv0 hops hrun
  obtain ⟨hq, hnd, hlt, hle, hlt2, hdone⟩ := hinv
  constructor
  · constructor
    · intro hsome
      obtain ⟨m, hm⟩ := Option.isSome_iff_exists.mp hsome
      have hlenn := (hdone m hm).2
      exact keys_complete questions.length s.answers hnd hlt (by omega)
    · intro hall
      cases hd : s.done with
      | some m => rfl
      | none =>
        exfalso
        have h1 := hlt2 hd
        have h2 := keys_full_length questions.length s.answers hall
        omega
  · intro m hm
    exact (hdone m hm).1

/-- A two-question request. -/
def twoQs : List QQuestion :=
  [⟨"q1", [], false⟩, ⟨"q2", [], false⟩]

/-- C7 counterexample: on a two-question request, the sequence
`set_answer 2 "a"; set_answer 3 "b"` stores two answers under out-of-range
indices; the count-based `all_answered` check then resolves the future, even
though question indices 0 and 1 never received an answer — completion is not
equivalent to every question index having an answer. -/
theorem c7_counterexample :
    runQOps (create_request twoQs) [.setAnswer 2 ("a"), .setAnswer 3 ("b")]
        = some ⟨twoQs, [(2, "a"), (3, "b")], [], some [(2, "a"), (3, "b")]⟩
      ∧ answeredIdx [(2, ("a" : String)), (3, "b")] 0 = false := by
  refine ⟨by decide, by decide⟩

/-- A one-question request. -/
def oneQ : List QQuestion := [⟨"q", ["yes", "no"], false⟩]

/-- Witness for the amended C7 at a concrete input: answering the single
question of a one-question request resolves the future, and index 0 is
indeed answered. -/
theorem c7_amended_witness :
    runQOps (create_request oneQ) [.setAnswer 0 ("yes")]
        = some ⟨oneQ, [(0, "yes")], [], some [(0, "yes")]⟩
      ∧ answeredIdx [(0, ("yes" : String))] 0 = true := by
  refine ⟨by decide, ?_⟩
  exact (c7_amended oneQ [.setAnswer 0 ("yes")]
      ⟨oneQ, [(0, "yes")], [], some [(0, "yes")]⟩
      (by decide) (by decide) (by decide)).1.mp (by decide) 0 (by decide)

/-- C9: on a pending request, toggling the same multi-select option twice
returns every question's observable selection set to its original state (the
option is un-selected again and no other question's selections change), and
leaves the answers, the question list, and the future untouched. -/
theorem c9_toggle_twice (s : QReqState) (question_idx option_idx : Nat)
    (hpending : s.done = none) :
    (∀ j, dictGetD (toggle_multi_select
            (toggle_multi_select s question_idx option_idx).2
            question_idx option_idx).2.multi_selections j ∅
          = dictGetD s.multi_selections j ∅)
      ∧ (toggle_multi_select (toggle_multi_select s question_idx option_idx).2
            question_idx option_idx).2.answers = s.answers
      ∧ (toggle_multi_select (toggle_multi_select s question_idx option_idx).2
            question_idx option_idx).2.done = s.done
      ∧ (toggle_multi_select (toggle_multi_select s question_idx option_idx).2
            question_idx option_idx).2.questions = s.questions := by
  unfold toggle_multi_select
  rw [hpending]
  simp only [hpending]
  set cur := dictGetD s.multi_selections question_idx ∅ with hcur
  set cur' := (if option_idx ∈ cur then cur.erase option_idx
    else insert option_idx cur) with hcur'
  have hget1 : dictGetD (dictInsert question_idx cur' s.multi_selections)
      question_idx ∅ = cur' := dictGetD_dictInsert_self _ _ _ _
  rw [hget1]
  have hroundtrip : (if option_idx ∈ cur' then cur'.erase option_idx
      else insert option_idx cur') = cur := by
    rw [hcur']
    by_cases hmem : option_idx ∈ cur
    · rw [if_pos hmem, if_neg (Finset.not_mem_erase option_idx cur)]
      exact Finset.insert_erase hmem
    · rw [if_neg hmem, if_pos (Finset.mem_insert_self option_idx cur)]
      exact Finset.erase_insert hmem
  rw [hroundtrip]
  refine ⟨?_, by trivial, by trivial, by trivial⟩
  intro j
  by_cases hj : j = question_idx
  · subst hj
    rw [dictGetD_dictInsert_self]
  · rw [dictGetD_dictInsert_ne _ _ _ _ _ hj, dictGetD_dictInsert_ne _ _ _ _ _ hj]

/-- A one-question multi-select request. -/
def msQ : List QQuestion := [⟨"pick", ["a", "b"], true⟩]

/-- Witness for C9 at a concrete input: toggling option 1 of question 0
twice on a fresh multi-select request restores the empty selection set. -/
theorem c9_toggle_twice_witness :
    (create_request msQ).done = none
      ∧ dictGetD (toggle_multi_select
            (toggle_multi_select (create_request msQ) 0 1).2 0 1).2.multi_selections
          0 ∅
        = dictGetD (create_request msQ).multi_selections 0 ∅ := by
  exact ⟨rfl, (c9_toggle_twice (create_request msQ) 0 1 rfl).1 0⟩

/-- One pending permission request (permission_handler.py lines 8-14): its
tool data, key, and the state of its one-shot resolution future (`none`
while unresolved, `some b` once a value was set). -/
structure PermRequest where
  tool_name : String
  tool_input : ToolInput
  request_id : String
  futureDone : Option Bool
deriving DecidableEq

/-- The `PermissionManager` state: the `_pending` registry plus the ordered
log of values delivered to resolution futures (each `set_result` call
appends one entry — the log records every delivery ever made). -/
structure PermState where
  pending : List PermRequest
  delivered : List (String × Bool)
deriving DecidableEq

/-- `PermissionManager.resolve` (lines 37-43): pop the request with this id;
if there is none, return `false` with no other effect; otherwise deliver the
decision to its future (unless the future is already done) and return
`true`. -/
def resolve (s : PermState) (request_id : String) (approved : Bool) :
    Bool × PermState :=
  match s.pending.find? (fun r => r.request_id == request_id) with
  | none => (false, s)
  | some req =>
    let pending' := s.pending.filter (fun r => r.request_id != request_id)
    if req.futureDone.isNone then
      (true, { pending := pending',
               delivered := s.delivered ++ [(request_id, approved)] })
    else (true, { s with pending := pending' })

theorem find?_filter_ne_none (l : List PermRequest) (request_id : String) :
    (l.filter (fun r => r.request_id != request_id)).find?
        (fun r => r.request_id == request_id) = none := by
  rw [List.find?_eq_none]
  intro x hx
  have hmem := List.of_mem_filter hx
  simp only [bne_iff_ne, ne_eq] at hmem
  simp [hmem]

/-- C8: resolving the same request id a second time returns `false`, raises
nothing, and has no observable effect — the registry and the log of values
delivered to outcome slots are both unchanged, so the slot's value is
delivered exactly once; resolving an unknown id likewise returns `false`
and changes nothing. -/
theorem c8_resolve_idempotent (s : PermState) (request_id : String)
    (a₁ a₂ : Bool) :
    resolve (resolve s request_id a₁).2 request_id a₂
        = (false, (resolve s request_id a₁).2)
      ∧ (s.pending.find? (fun r => r.request_id == request_id) = none →
          resolve s request_id a₁ = (false, s)) := by
  constructor
  · cases hfind : s.pending.find? (fun r => r.request_id == request_id) with
    | none =>
      have hfst : (resolve s request_id a₁).2 = s := by
        unfold resolve
        rw [hfind]
      rw [hfst]
      unfold resolve
      rw [hfind]
    | some req =>
      have hstate : (resolve s request_id a₁).2.pending
          = s.pending.filter (fun r => r.request_id != request_id) := by
        unfold resolve
        rw [hfind]
        dsimp only
        by_cases hfut : req.futureDone.isNone = true
        · rw [if_pos hfut]
        · rw [if_neg hfut]
      set s₁ := (resolve s request_id a₁).2 with hs₁
      have hfind2 : s₁.pending.find?
          (fun r => r.request_id == request_id) = none := by
        rw [hstate]
        exact find?_filter_ne_none _ _
      unfold resolve
      rw [hfind2]
  · intro hnone
    unfold resolve
    rw [hnone]

/-- Witness for C8 at a concrete input: on an empty registry, resolving an
unknown id returns `false` and leaves the state untouched. -/
theorem c8_resolve_idempotent_witness :
    ((⟨[], []⟩ : PermState).pending.find?
        (fun r => r.request_id == ("x" : String)) = none)
      ∧ resolve ⟨[], []⟩ ("x") true = (false, ⟨[], []⟩) := by
  refine ⟨by decide, ?_⟩
  exact (c8_resolve_idempotent ⟨[], []⟩ ("x") true true).2 (by decide)

end SimpleJack
